import Mathlib

/-!
Verification of the freecell-solver core (src/card.rs, src/game.rs,
src/action.rs, src/heap.rs, src/solver.rs) against its specification.

Modelling conventions:
* Rust `u8` / `u32` / `usize` / `u64` values are modelled as `Nat`, `i32` as
  `Int`; subtractions that cannot underflow in the program are written with
  truncated `Nat` subtraction and any reachable underflow or out-of-bounds
  index is modelled explicitly (see `RResult.panicked`).
* Rust `Vec<T>` is `List T` in the same order (index 0 is the bottom of a
  column, the last element is the movable top, matching `Vec::last`).
* Fallible Rust functions returning `Result<_, String>` become `RResult`;
  a `.unwrap()` on an `Err` and an out-of-bounds index both yield
  `RResult.panicked`.
* The `f32` score of `Solver::heuristic` is modelled over `ℚ` with the exact
  literal weights 0.3 and 0.5; all quantities involved are small integers
  scaled by these weights.
-/

/-- Suits as in src/card.rs (discriminants Diamond=0, Club=1, Spade=2, Heart=3). -/
inductive Suit where
  | Diamond
  | Club
  | Spade
  | Heart
deriving DecidableEq, Repr

/-- Numeric index of a suit: the `repr(u8)` discriminant in src/card.rs, which is
also the foundation index computed by the `match` in `Game::apply_foundation_moves`
(src/game.rs lines 311-316). -/
def suitIndex : Suit → Nat
  | Suit.Diamond => 0
  | Suit.Club => 1
  | Suit.Spade => 2
  | Suit.Heart => 3

/-- Card as in src/card.rs and src/game.rs: a rank (u8, 1..13 for legal cards)
and a suit. -/
structure Card where
  rank : Nat
  suit : Suit
deriving DecidableEq, Repr

instance : Inhabited Card := ⟨⟨0, Suit.Diamond⟩⟩

/-- Predicate `Card::is_black` from src/card.rs: true for Diamond and Heart
(the source's inverted colour naming, noted in spec §9; only the partition
matters). -/
def Card.isBlack (c : Card) : Bool :=
  c.suit == Suit.Diamond || c.suit == Suit.Heart

/-- Stacking test `Card::can_stack` from src/game.rs lines 19-25:
`self` can receive `other` on top iff the colours differ and
`self.rank - 1 == other.rank`.  The `u8` subtraction is modelled by truncated
`Nat` subtraction; ranks of cards built by the program are at least 1, where
the two agree. -/
def Card.canStack (self other : Card) : Bool :=
  let sameColor :=
    ((self.suit == Suit.Diamond) || (self.suit == Suit.Heart))
      == ((other.suit == Suit.Diamond) || (other.suit == Suit.Heart))
  !sameColor && (self.rank - 1 == other.rank)

/-- Game state shared by src/game.rs and src/solver.rs: eight columns of cards
(`Vec` bottom-to-top), four freecells, four foundation counters.  The fixed
array sizes 8 / 4 / 4 of the Rust type are recorded as hypotheses where a
theorem needs them. -/
structure Game where
  columns : List (List Card)
  freecells : List (Option Card)
  foundations : List Nat
deriving DecidableEq, Repr

/-- Result of a Rust call: normal return, an `Err` value, or a panic
(out-of-bounds index, integer underflow, or `.unwrap()` of an `Err`). -/
inductive RResult (α : Type) where
  | ok : α → RResult α
  | err : String → RResult α
  | panicked : RResult α
deriving DecidableEq, Repr

/-- Action of src/game.rs lines 66-101: raw column indices (0..7 columns,
8..11 freecells) plus a `pile_size` field that `Game::apply` uses as an
offset into the source column. -/
structure OAction where
  from_ : Nat
  to_ : Nat
  pileSize : Nat
deriving DecidableEq, Repr

/-- Validation `Action::new` from src/game.rs lines 74-92. -/
def OAction.new (f t p : Nat) : RResult OAction :=
  if f ≥ 12 || t ≥ 12 then RResult.err "Invalid column indices"
  else if f == t then RResult.err "Cannot move to the same column"
  else if (f > 7 || t > 7) && p > 1 then RResult.err "Cannot move more than 1 card to freecells"
  else RResult.ok ⟨f, t, p⟩

/-- Test `Action::stock` (destination is a freecell), src/game.rs line 94. -/
def OAction.stock (a : OAction) : Bool := a.to_ ≥ 8

/-- Test `Action::destock` (source is a freecell), src/game.rs line 98. -/
def OAction.destock (a : OAction) : Bool := a.from_ ≥ 8

/-- Test whether the top (last) card of a column can be promoted, i.e. the body
of the condition in `Game::apply_foundation_moves` (src/game.rs lines 310-320):
the column is non-empty, the foundation counter of the top card's suit is
below 13, and the card's rank is exactly one above that counter. -/
def promotableTop (founds : List Nat) (col : List Card) : Bool :=
  match col.getLast? with
  | none => false
  | some card =>
      decide (founds.getD (suitIndex card.suit) 0 < 13)
        && (card.rank == founds.getD (suitIndex card.suit) 0 + 1)

/-- Single pass of the `for col in 0..8` loop in `Game::apply_foundation_moves`:
find the first column (indices 0..7) whose top is promotable, pop it and bump
the foundation, or return `none` when no column qualifies (the `has_move`
flag stays false). -/
def promoteOnce (g : Game) : Option Game :=
  match (List.range 8).find? (fun i => promotableTop g.foundations (g.columns.getD i [])) with
  | none => none
  | some i =>
      match (g.columns.getD i []).getLast? with
      | none => none
      | some card =>
          let fi := suitIndex card.suit
          some { columns := g.columns.set i (g.columns.getD i []).dropLast,
                 freecells := g.freecells,
                 foundations := g.foundations.set fi (g.foundations.getD fi 0 + 1) }

/-- Total number of cards currently in the columns. -/
def totalCols (g : Game) : Nat := (g.columns.map List.length).sum

/-- Fuelled unfolding of the `loop` in `Game::apply_foundation_moves`
(src/game.rs lines 302-333).  Each promotion removes one card from a column,
so `totalCols g + 1` fuel always reaches the fixpoint (proved below). -/
def afmLoop : Nat → Game → Game
  | 0, g => g
  | fuel + 1, g =>
      match promoteOnce g with
      | none => g
      | some g1 => afmLoop fuel g1

/-- Function `Game::apply_foundation_moves`: run promotions to fixpoint. -/
def applyFoundationMoves (g : Game) : Game := afmLoop (totalCols g + 1) g

/-- Dealing loop of `Game::new` (src/game.rs lines 118-121): card `i` is
pushed onto column `i % 8`. -/
def dealCards (cards : List Card) : List (List Card) :=
  cards.enum.foldl
    (fun cols p => cols.set (p.1 % 8) ((cols.getD (p.1 % 8) []) ++ [p.2]))
    (List.replicate 8 [])

/-- Constructor `Game::new` from src/game.rs lines 111-126: deal round-robin
into eight empty columns, leave freecells empty and foundations at zero, then
run automatic foundation promotion.  The function performs no validation of
the input slice. -/
def Game.new (cards : List Card) : Game :=
  applyFoundationMoves
    { columns := dealCards cards,
      freecells := List.replicate 4 none,
      foundations := [0, 0, 0, 0] }

/-- Test `Game::is_complete` from src/game.rs lines 147-149. -/
def Game.isComplete (g : Game) : Bool := g.foundations.all (fun f => f == 13)

/-- Function `Game::move_between_columns` (src/game.rs lines 151-162): split
the source column at index `pile_size`, and move the suffix onto the target
column after checking, when the target is non-empty, that its top card
`can_stack` every moved card. -/
def Game.moveBetweenColumns (g : Game) (a : OAction) : RResult Game :=
  match g.columns[a.from_]? with
  | none => RResult.panicked
  | some src =>
      let cardsToMove := src.drop a.pileSize
      let cols1 := g.columns.set a.from_ (src.take a.pileSize)
      match cols1[a.to_]? with
      | none => RResult.panicked
      | some tgt =>
          match tgt.getLast? with
          | some targetCard =>
              if !cardsToMove.all (fun c => targetCard.canStack c) then
                RResult.err "Cannot stack cards on the target card"
              else
                RResult.ok { g with columns := cols1.set a.to_ (tgt ++ cardsToMove) }
          | none => RResult.ok { g with columns := cols1.set a.to_ (tgt ++ cardsToMove) }

/-- Function `Game::move_to_freecell` (src/game.rs lines 164-171): the slot is
`action.to - 8` (the caller has checked `to ≥ 8`); an occupied slot is an
error; otherwise the slot receives `columns[from].pop()` (possibly `None`). -/
def Game.moveToFreecell (g : Game) (a : OAction) : RResult Game :=
  let fc := a.to_ - 8
  match g.freecells[fc]? with
  | none => RResult.panicked
  | some slot =>
      if slot.isSome then RResult.err "Freecell is already occupied"
      else
        match g.columns[a.from_]? with
        | none => RResult.panicked
        | some src =>
            RResult.ok { g with freecells := g.freecells.set fc src.getLast?,
                                columns := g.columns.set a.from_ src.dropLast }

/-- Function `Game::move_from_freecell` (src/game.rs lines 173-185).  The slot
is computed as `action.to - 8` although `to` is the destination column: for
`to < 8` the `usize` subtraction underflows (a panic), and otherwise the
later `columns[action.to]` index with `to ≥ 8` is out of bounds for a
well-formed game. -/
def Game.moveFromFreecell (g : Game) (a : OAction) : RResult Game :=
  if a.to_ < 8 then RResult.panicked
  else
    let fc := a.to_ - 8
    match g.freecells[fc]? with
    | none => RResult.panicked
    | some slot =>
        match slot with
        | none => RResult.ok g
        | some card =>
            match g.columns[a.to_]? with
            | none => RResult.panicked
            | some tgt =>
                match tgt.getLast? with
                | some targetCard =>
                    if !targetCard.canStack card then
                      RResult.err "Cannot stack card on the target column"
                    else
                      RResult.ok { g with freecells := g.freecells.set fc none,
                                          columns := g.columns.set a.to_ (tgt ++ [card]) }
                | none =>
                    RResult.ok { g with freecells := g.freecells.set fc none,
                                        columns := g.columns.set a.to_ (tgt ++ [card]) }

/-- Function `Game::apply` (src/game.rs lines 128-144).  The first statement
indexes `self.columns[action.from]` (a panic when `from ≥ 8`), then the guard
`pile_size >= len` returns `Err("Invalid offset")`; the selected inner move is
`.unwrap()`ed, turning any inner `Err` into a panic; on success automatic
foundation promotion runs and `Ok(())` is returned. -/
def Game.applyA (g : Game) (a : OAction) : RResult Game :=
  match g.columns[a.from_]? with
  | none => RResult.panicked
  | some srcCol =>
      if a.pileSize ≥ srcCol.length then RResult.err "Invalid offset"
      else
        let inner : RResult Game :=
          if a.destock then g.moveFromFreecell a
          else if a.stock then g.moveToFreecell a
          else g.moveBetweenColumns a
        match inner with
        | RResult.ok g1 => RResult.ok (applyFoundationMoves g1)
        | _ => RResult.panicked

/-- Function `Game::max_card_move` (src/game.rs lines 188-200): capacity
`(1 << E) * (F + 1)` capped at 13, with one empty column discounted when the
destination is itself empty. -/
def Game.maxCardMove (g : Game) (removeOneColumn : Bool) : Nat :=
  let freecellsCount := (g.freecells.filter (fun c => c.isNone)).length
  let freeColumnsCount := (g.columns.filter (fun c => c.isEmpty)).length
  let freeColumnsCount :=
    if removeOneColumn && freeColumnsCount > 0 then freeColumnsCount - 1
    else freeColumnsCount
  min ((2 ^ freeColumnsCount) * (freecellsCount + 1)) 13

/-- Number of empty freecells (`F` of spec §4.1). -/
def emptyFreecellCount (g : Game) : Nat :=
  (g.freecells.filter (fun c => c.isNone)).length

/-- Number of empty columns (`E` of spec §4.1). -/
def emptyColumnCount (g : Game) : Nat :=
  (g.columns.filter (fun c => c.isEmpty)).length

/-- Solver state from src/solver.rs lines 7-11; the visited set of `u64`
hashes is modelled as a list, which no claim inspects. -/
structure Solver where
  initial_game : Game
  visited_states : List Nat
  nodes_explored : Nat

/-- Constructor `Solver::new` from src/solver.rs lines 14-20. -/
def Solver.new (g : Game) : Solver := ⟨g, [], 0⟩

/-- Function `Solver::solve` from src/solver.rs lines 208-211: the body is
literally `None` under the comment "Placeholder for the actual solving
logic"; the budget argument is unused. -/
def Solver.solve (_s : Solver) (_maxNodes : Nat) : Option (List Nat) :=
  none

/-- Already-won state of spec §8 scenario 2: all four foundations at 13,
cascades and freecells empty. -/
def wonGame : Game :=
  { columns := List.replicate 8 [],
    freecells := List.replicate 4 none,
    foundations := [13, 13, 13, 13] }

/-- Heap node from src/heap.rs lines 8-14. -/
structure HeapNode where
  f_score : Int
  counter : Nat
  state : Game
  path : List Nat

/-- Comparison `Ord::cmp` for `i32` / `u64` values. -/
def ordCmp (a b : Int) : Ordering :=
  if a < b then Ordering.lt else if a = b then Ordering.eq else Ordering.gt

/-- Comparison for `u64` counters. -/
def natOrdCmp (a b : Nat) : Ordering :=
  if a < b then Ordering.lt else if a = b then Ordering.eq else Ordering.gt

/-- Ordering `impl Ord for HeapNode` from src/heap.rs lines 17-25:
`other.f_score.cmp(&self.f_score).then_with(|| other.counter.cmp(&self.counter))`,
the reversed comparison that turns Rust's max-heap into a min-heap on
`f_score` with earlier counters preferred. -/
def HeapNode.cmp (self other : HeapNode) : Ordering :=
  (ordCmp other.f_score self.f_score).then (natOrdCmp other.counter self.counter)

/-! Claims C1, C8, C9. -/

/-- Claim C1 (code_bug evidence): the spec requires `solve` on the already-won
state (foundations all 13, everything else empty) to return `Some([])` for any
budget of at least 1, but the committed body of `Solver::solve` is the
placeholder `None`: at the failing input the state is won yet `solve 1`
returns `none`. -/
theorem c1_solve_placeholder_returns_none :
    Game.isComplete wonGame = true ∧ (Solver.new wonGame).solve 1 = none :=
  ⟨rfl, rfl⟩

/-- Claim C8 (confirmed): `max_card_move` computes exactly the spec capacity
`min((1 + F) * 2^E, 13)` with a non-empty destination, and
`min((1 + F) * 2^max(E-1,0), 13)` with an empty destination (truncated `Nat`
subtraction realises `max(E-1,0)`). -/
theorem c8_max_card_move_formula (g : Game) :
    g.maxCardMove false = min ((1 + emptyFreecellCount g) * 2 ^ emptyColumnCount g) 13 ∧
      g.maxCardMove true = min ((1 + emptyFreecellCount g) * 2 ^ (emptyColumnCount g - 1)) 13 := by
  unfold Game.maxCardMove emptyFreecellCount emptyColumnCount
  constructor
  · simp [Nat.mul_comm, Nat.add_comm]
  · by_cases h : (g.columns.filter (fun c => c.isEmpty)).length > 0
    · simp [h, Nat.mul_comm, Nat.add_comm]
    · simp only [Nat.not_lt, Nat.le_zero] at h
      simp [h, Nat.mul_comm, Nat.add_comm]

/-- Claim C9 (confirmed): a HeapNode `a` compares strictly greater than `b`
exactly when `a.f_score < b.f_score`, or the scores are equal and
`a.counter < b.counter`; hence Rust's max-`BinaryHeap` pops ascending
`f_score`, ties broken by ascending insertion counter. -/
theorem c9_heapnode_ord (a b : HeapNode) :
    HeapNode.cmp a b = Ordering.gt ↔
      (a.f_score < b.f_score ∨ (a.f_score = b.f_score ∧ a.counter < b.counter)) := by
  unfold HeapNode.cmp ordCmp natOrdCmp
  rcases lt_trichotomy a.f_score b.f_score with h | h | h
  · simp [h, not_lt.mpr (le_of_lt h), Ordering.then, h.ne.symm]
  · rcases lt_trichotomy a.counter b.counter with hc | hc | hc
    · simp [h, Ordering.then, hc, not_lt.mpr (le_of_lt hc), hc.ne.symm]
    · simp [h, Ordering.then, hc]
    · simp [h, Ordering.then, not_lt.mpr (le_of_lt hc), hc.ne.symm, not_lt.mpr (le_of_lt hc), hc, Nat.lt_asymm hc]
  · simp [h, not_lt.mpr (le_of_lt h), h.ne.symm, Ordering.then, Int.lt_asymm h]

/-! Machinery for the automatic-foundation-promotion fixpoint (claims C2, C3). -/

/-- Sum-of-lengths bookkeeping for `List.set`. -/
lemma sumLen_set (l : List (List Card)) (i : Nat) (c : List Card) (h : i < l.length) :
    ((l.set i c).map List.length).sum + (l.getD i []).length
      = (l.map List.length).sum + c.length := by
  induction l generalizing i with
  | nil => simp at h
  | cons x xs ih =>
    cases i with
    | zero => simp [List.set]; omega
    | succ n =>
      simp only [List.set, List.map_cons, List.sum_cons, List.getD_cons_succ]
      have := ih n (by simpa using h)
      omega

/-- Sum bookkeeping for `List.set` on the foundation counters. -/
lemma sumNat_set (l : List Nat) (i : Nat) (v : Nat) (h : i < l.length) :
    (l.set i v).sum + l.getD i 0 = l.sum + v := by
  induction l generalizing i with
  | nil => simp at h
  | cons x xs ih =>
    cases i with
    | zero => simp [List.set]; omega
    | succ n =>
      simp only [List.set, List.sum_cons, List.getD_cons_succ]
      have := ih n (by simpa using h)
      omega

/-- A promotable column top forces the column to be non-empty. -/
lemma promotable_ne_nil {f : List Nat} {col : List Card}
    (h : promotableTop f col = true) : col ≠ [] := by
  intro hnil
  subst hnil
  simp [promotableTop] at h

/-- Each promotion step removes exactly one card from the columns. -/
lemma promoteOnce_totalCols {g g1 : Game} (h : promoteOnce g = some g1) :
    totalCols g1 + 1 = totalCols g := by
  unfold promoteOnce at h
  cases hf : (List.range 8).find?
      (fun i => promotableTop g.foundations (g.columns.getD i [])) with
  | none => rw [hf] at h; exact absurd h (by simp)
  | some i =>
    rw [hf] at h
    simp only [] at h
    have hp := List.find?_some hf
    have hne : g.columns.getD i [] ≠ [] := promotable_ne_nil (by simpa using hp)
    have hlen : i < g.columns.length := by
      by_contra hk
      apply hne
      simp [List.getD_eq_getElem?_getD, List.getElem?_eq_none (Nat.le_of_not_lt hk)]
    cases hl : (g.columns.getD i []).getLast? with
    | none => rw [hl] at h; exact absurd h (by simp)
    | some card =>
      rw [hl] at h
      simp only [Option.some.injEq] at h
      have hsum := sumLen_set g.columns i (g.columns.getD i []).dropLast hlen
      have hdl : (g.columns.getD i []).dropLast.length + 1 = (g.columns.getD i []).length := by
        have := List.length_dropLast (g.columns.getD i [])
        have hpos : 0 < (g.columns.getD i []).length := List.length_pos.mpr hne
        omega
      subst h
      simp only [totalCols]
      omega

/-- With fuel exceeding the card count the promotion loop reaches a fixpoint. -/
lemma afmLoop_fix : ∀ (fuel : Nat) (g : Game), totalCols g < fuel →
    promoteOnce (afmLoop fuel g) = none := by
  intro fuel
  induction fuel with
  | zero => intro g h; omega
  | succ n ih =>
    intro g h
    unfold afmLoop
    cases hp : promoteOnce g with
    | none => simpa using hp
    | some g1 =>
      simp only []
      exact ih g1 (by have := promoteOnce_totalCols hp; omega)

/-- Function `apply_foundation_moves` always returns a promotion fixpoint. -/
lemma applyFoundationMoves_fix (g : Game) :
    promoteOnce (applyFoundationMoves g) = none :=
  afmLoop_fix _ g (by omega)

/-- Decidable form of the amended C2 invariant: no column top among the eight
columns is promotable (foundation counter below 13 and rank exactly one above
it). -/
def noEligibleTop (g : Game) : Bool :=
  (List.range 8).all (fun i => !(promotableTop g.foundations (g.columns.getD i [])))

/-- Decidable form of the freecell half of claim C2: some freecell card `c`
satisfies `foundations[c.suit] + 1 == c.rank`. -/
def freecellEligible (g : Game) : Bool :=
  g.freecells.any (fun oc =>
    match oc with
    | some c => g.foundations.getD (suitIndex c.suit) 0 + 1 == c.rank
    | none => false)

/-- A game at the promotion fixpoint has no eligible cascade top. -/
lemma noEligibleTop_of_fix {g : Game} (h : promoteOnce g = none) :
    noEligibleTop g = true := by
  unfold promoteOnce at h
  cases hf : (List.range 8).find?
      (fun i => promotableTop g.foundations (g.columns.getD i [])) with
  | some i =>
    rw [hf] at h
    simp only [] at h
    have hp := List.find?_some hf
    have hne : g.columns.getD i [] ≠ [] := promotable_ne_nil (by simpa using hp)
    cases hl : (g.columns.getD i []).getLast? with
    | none => exact absurd hl (by simpa [List.getLast?_eq_none_iff] using hne)
    | some card => rw [hl] at h; exact absurd h (by simp)
  | none =>
    have := List.find?_eq_none.mp hf
    unfold noEligibleTop
    rw [List.all_eq_true]
    intro i hi
    simpa using this i hi

/-- Every successful `Game::apply` returns a promotion fixpoint: the `Ok`
branch is reached only after `apply_foundation_moves` has run. -/
lemma applyA_ok_fix {g g1 : Game} {a : OAction} (h : g.applyA a = RResult.ok g1) :
    promoteOnce g1 = none := by
  unfold Game.applyA at h
  cases hc : g.columns[a.from_]? with
  | none => rw [hc] at h; exact absurd h (by simp)
  | some src =>
    rw [hc] at h
    simp only [] at h
    by_cases hp : a.pileSize ≥ src.length
    · rw [if_pos hp] at h; exact absurd h (by simp)
    · rw [if_neg hp] at h
      cases hi : (if a.destock then g.moveFromFreecell a
          else if a.stock then g.moveToFreecell a else g.moveBetweenColumns a) with
      | ok g2 =>
        rw [hi] at h
        simp only [RResult.ok.injEq] at h
        rw [← h]
        exact applyFoundationMoves_fix g2
      | err s => rw [hi] at h; exact absurd h (by simp)
      | panicked => rw [hi] at h; exact absurd h (by simp)

/-- Claim C2 (amended, proved): states produced by `Game::new` or by a
successful `Game::apply` have no promotable cascade top — the automatic
promotion loop scans cascade tops only, so the freecell half of the original
claim is dropped (see the counterexample). -/
theorem c2_no_eligible_cascade_top :
    (∀ cards : List Card, noEligibleTop (Game.new cards) = true) ∧
      ∀ (g g1 : Game) (a : OAction), g.applyA a = RResult.ok g1 →
        noEligibleTop g1 = true := by
  constructor
  · intro cards
    exact noEligibleTop_of_fix (applyFoundationMoves_fix _)
  · intro g g1 a h
    exact noEligibleTop_of_fix (applyA_ok_fix h)

/-- Game used to refute the freecell half of claim C2: the 2 of Diamonds sits
in a freecell while the Ace of Diamonds is about to be promoted. -/
def c2Game : Game :=
  { columns := [[⟨1, Suit.Diamond⟩], [], [], [], [], [], [], []],
    freecells := [some ⟨2, Suit.Diamond⟩, none, none, none],
    foundations := [0, 0, 0, 0] }

/-- Move the Ace of Diamonds from column 0 to the empty column 1 (offset 0);
the Ace is then auto-promoted, making the freecell 2 of Diamonds eligible. -/
def c2Act : OAction := ⟨0, 1, 0⟩

/-- State reached by `c2Game.applyA c2Act`. -/
def c2Result : Game :=
  { columns := [[], [], [], [], [], [], [], []],
    freecells := [some ⟨2, Suit.Diamond⟩, none, none, none],
    foundations := [1, 0, 0, 0] }

/-- Claim C2 counterexample: a successful `Game::apply` yields a state whose
freecell card satisfies `foundations[c.suit] + 1 == c.rank` — automatic
promotion does not remove eligible cards from freecells. -/
theorem c2_counterexample :
    c2Game.applyA c2Act = RResult.ok c2Result ∧ freecellEligible c2Result = true := by
  exact ⟨by decide, by decide⟩

/-- Claim C2 witness: the amended theorem instantiated at the concrete
successful application above. -/
theorem c2_no_eligible_cascade_top_witness :
    noEligibleTop c2Result = true :=
  c2_no_eligible_cascade_top.2 c2Game c2Result c2Act (by decide)

/-! Conservation of cards through dealing and promotion (claim C3). -/

/-- Each promotion step moves one card from the columns to the foundations,
and touches nothing else. -/
lemma promoteOnce_conserve {g g1 : Game} (h4 : g.foundations.length = 4)
    (h : promoteOnce g = some g1) :
    totalCols g1 + g1.foundations.sum = totalCols g + g.foundations.sum ∧
      g1.foundations.length = 4 ∧ g1.freecells = g.freecells := by
  unfold promoteOnce at h
  cases hf : (List.range 8).find?
      (fun i => promotableTop g.foundations (g.columns.getD i [])) with
  | none => rw [hf] at h; exact absurd h (by simp)
  | some i =>
    rw [hf] at h
    simp only [] at h
    have hp := List.find?_some hf
    have hne : g.columns.getD i [] ≠ [] := promotable_ne_nil (by simpa using hp)
    have hlen : i < g.columns.length := by
      by_contra hk
      apply hne
      simp [List.getD_eq_getElem?_getD, List.getElem?_eq_none (Nat.le_of_not_lt hk)]
    cases hl : (g.columns.getD i []).getLast? with
    | none => rw [hl] at h; exact absurd h (by simp)
    | some card =>
      rw [hl] at h
      simp only [Option.some.injEq] at h
      have hfi : suitIndex card.suit < 4 := by cases card.suit <;> simp [suitIndex]
      have hsumc := sumLen_set g.columns i (g.columns.getD i []).dropLast hlen
      have hdl : (g.columns.getD i []).dropLast.length + 1 = (g.columns.getD i []).length := by
        have := List.length_dropLast (g.columns.getD i [])
        have hpos : 0 < (g.columns.getD i []).length := List.length_pos.mpr hne
        omega
      have hsumf := sumNat_set g.foundations (suitIndex card.suit)
        (g.foundations.getD (suitIndex card.suit) 0 + 1) (by omega)
      subst h
      refine ⟨?_, by simpa using h4, rfl⟩
      simp only [totalCols] at *
      omega

/-- The promotion loop preserves columns-plus-foundations card count, the
foundation arity, and the freecells. -/
lemma afmLoop_conserve : ∀ (fuel : Nat) (g : Game), g.foundations.length = 4 →
    totalCols (afmLoop fuel g) + (afmLoop fuel g).foundations.sum
        = totalCols g + g.foundations.sum ∧
      (afmLoop fuel g).foundations.length = 4 ∧
      (afmLoop fuel g).freecells = g.freecells := by
  intro fuel
  induction fuel with
  | zero => intro g h4; exact ⟨rfl, h4, rfl⟩
  | succ n ih =>
    intro g h4
    unfold afmLoop
    cases hp : promoteOnce g with
    | none => exact ⟨rfl, h4, rfl⟩
    | some g1 =>
      simp only []
      have hc := promoteOnce_conserve h4 hp
      have := ih g1 hc.2.1
      exact ⟨by omega, this.2.1, by rw [this.2.2, hc.2.2]⟩

/-- Dealing distributes every input card into the eight columns. -/
lemma dealCards_count (cards : List Card) :
    ((dealCards cards).map List.length).sum = cards.length ∧
      (dealCards cards).length = 8 := by
  unfold dealCards
  have key : ∀ (ps : List (Nat × Card)) (cols : List (List Card)), cols.length = 8 →
      ((ps.foldl (fun cols p => cols.set (p.1 % 8) ((cols.getD (p.1 % 8) []) ++ [p.2]))
          cols).map List.length).sum
          = (cols.map List.length).sum + ps.length ∧
        (ps.foldl (fun cols p => cols.set (p.1 % 8) ((cols.getD (p.1 % 8) []) ++ [p.2]))
            cols).length = 8 := by
    intro ps
    induction ps with
    | nil => intro cols hc; simp [hc]
    | cons p ps ih =>
      intro cols hc
      simp only [List.foldl_cons]
      have hk : p.1 % 8 < cols.length := by rw [hc]; exact Nat.mod_lt _ (by norm_num)
      have h1 := sumLen_set cols (p.1 % 8) ((cols.getD (p.1 % 8) []) ++ [p.2]) hk
      have h2 := ih (cols.set (p.1 % 8) ((cols.getD (p.1 % 8) []) ++ [p.2]))
        (by simp [hc])
      constructor
      · rw [h2.1]
        simp only [List.length_append, List.length_cons, List.length_nil] at h1 ⊢
        omega
      · exact h2.2
  have := key cards.enum (List.replicate 8 []) (by simp)
  simpa using this

/-- Claim C3 (amended, proved): `Game::new` performs no validation and never
fails — on every input sequence, of any length and with any duplicates, it
returns a game in which each input card is accounted for exactly once across
columns and foundations, with all four freecells empty. -/
theorem c3_new_accepts_every_deal (cards : List Card) :
    totalCols (Game.new cards) + (Game.new cards).foundations.sum = cards.length ∧
      (Game.new cards).freecells = List.replicate 4 none := by
  unfold Game.new applyFoundationMoves
  have hd := dealCards_count cards
  have hc := afmLoop_conserve
    (totalCols (Game.mk (dealCards cards) (List.replicate 4 none) [0, 0, 0, 0]) + 1)
    (Game.mk (dealCards cards) (List.replicate 4 none) [0, 0, 0, 0]) (by simp)
  refine ⟨?_, hc.2.2⟩
  have h0 : totalCols (Game.mk (dealCards cards) (List.replicate 4 none) [0, 0, 0, 0])
      = cards.length := by
    simpa [totalCols] using hd.1
  have h1 := hc.1
  have hb : (Game.mk (dealCards cards) (List.replicate 4 none) [0, 0, 0, 0]).foundations.sum
      = 0 := by simp
  rw [hb, h0] at h1
  rw [h0]
  omega

/-- Malformed two-card deal with a duplicated Ace of Spades. -/
def c3Deal : List Card := [⟨1, Suit.Spade⟩, ⟨1, Suit.Spade⟩]

/-- Game produced by `Game::new` on the malformed deal: the first duplicate is
auto-promoted, the second stays on column 1; no rejection happens. -/
def c3Result : Game :=
  { columns := [[], [⟨1, Suit.Spade⟩], [], [], [], [], [], []],
    freecells := [none, none, none, none],
    foundations := [0, 0, 1, 0] }

/-- Claim C3 counterexample: a deal that is not 52 pairwise-distinct cards
(two duplicated Aces) is not rejected — `Game::new` is infallible by type and
returns an ordinary game state. -/
theorem c3_counterexample :
    Game.new c3Deal = c3Result ∧ c3Deal.length ≠ 52 := by
  exact ⟨by decide, by decide⟩

/-! Behaviour of `Game::apply` on invalid external moves (claims C7, C10). -/

/-- Getting an existing column through the optional indexer. -/
lemma columns_getElem? {g : Game} {i : Nat} (h : i < g.columns.length) :
    g.columns[i]? = some (g.columns.getD i []) := by
  rw [List.getElem?_eq_getElem h]
  simp [List.getD_eq_getElem?_getD, List.getElem?_eq_getElem h]

/-- Claim C7 (amended, proved): for externally built column-to-column actions,
`Game::apply` returns `Err("Invalid offset")` when the offset reaches past the
source column, but when the offset is in range and the destination's top card
cannot stack some moved card, the inner `Err` of `move_between_columns` is
`.unwrap()`ed and `apply` panics instead of returning the error. -/
theorem c7_apply_error_then_panic (g : Game) (a b : OAction) (tc : Card)
    (hlen : g.columns.length = 8)
    (haf : a.from_ < 8)
    (haoff : (g.columns.getD a.from_ []).length ≤ a.pileSize)
    (hbf : b.from_ < 8) (hbt : b.to_ < 8) (hbne : b.from_ ≠ b.to_)
    (hboff : b.pileSize < (g.columns.getD b.from_ []).length)
    (hbl : (g.columns.getD b.to_ []).getLast? = some tc)
    (hball : ((g.columns.getD b.from_ []).drop b.pileSize).all
        (fun c => tc.canStack c) = false) :
    g.applyA a = RResult.err "Invalid offset" ∧ g.applyA b = RResult.panicked := by
  constructor
  · have hfa : a.from_ < g.columns.length := by omega
    unfold Game.applyA
    rw [columns_getElem? hfa]
    simp only []
    rw [if_pos haoff]
  · have hfb : b.from_ < g.columns.length := by omega
    have htb : b.to_ < g.columns.length := by omega
    have hds : b.destock = false := by
      simp only [OAction.destock, ge_iff_le, decide_eq_false_iff_not, not_le]
      omega
    have hst : b.stock = false := by
      simp only [OAction.stock, ge_iff_le, decide_eq_false_iff_not, not_le]
      omega
    have hmb : g.moveBetweenColumns b = RResult.err "Cannot stack cards on the target card" := by
      unfold Game.moveBetweenColumns
      rw [columns_getElem? hfb]
      simp only []
      have hset : (g.columns.set b.from_
          ((g.columns.getD b.from_ []).take b.pileSize))[b.to_]? = g.columns[b.to_]? :=
        List.getElem?_set_ne hbne
      rw [hset, columns_getElem? htb]
      simp only []
      rw [hbl]
      simp only [hball]
      rfl
    unfold Game.applyA
    rw [columns_getElem? hfb]
    simp only []
    rw [if_neg (by omega)]
    simp [hds, hst, hmb]

/-- Game for the C7 scenarios: column 0 holds 5 of Diamonds under 9 of Clubs,
column 1 holds 4 of Hearts. -/
def c7Game : Game :=
  { columns := [[⟨5, Suit.Diamond⟩, ⟨9, Suit.Club⟩], [⟨4, Suit.Heart⟩], [], [], [], [], [], []],
    freecells := [none, none, none, none],
    foundations := [0, 0, 0, 0] }

/-- Claim C7 counterexample: an externally built column-to-column action whose
moved block (the 9 of Clubs) the destination top (4 of Hearts) cannot accept
makes `Game::apply` panic (the inner `Err` is `.unwrap()`ed) instead of
evaluating to an error result. -/
theorem c7_counterexample :
    c7Game.applyA ⟨0, 1, 1⟩ = RResult.panicked := by decide

/-- Claim C7 witness: the amended theorem instantiated at the concrete game,
with the oversized offset returning the error and the unstackable block
panicking. -/
theorem c7_apply_error_then_panic_witness :
    c7Game.applyA ⟨0, 1, 5⟩ = RResult.err "Invalid offset" ∧
      c7Game.applyA ⟨0, 1, 1⟩ = RResult.panicked :=
  c7_apply_error_then_panic c7Game ⟨0, 1, 5⟩ ⟨0, 1, 1⟩ ⟨4, Suit.Heart⟩
    (by decide) (by decide) (by decide) (by decide) (by decide) (by decide)
    (by decide) (by decide) (by decide)

/-- Claim C10 (confirmed): any action with source index 8 or more (every
freecell-to-column move built by `get_all_possible_moves`) makes the first
statement of `Game::apply` index `columns[action.from]` out of bounds, so the
move can never be applied successfully. -/
theorem c10_apply_oob (g : Game) (a : OAction)
    (hlen : g.columns.length = 8) (h8 : 8 ≤ a.from_) :
    g.applyA a = RResult.panicked := by
  unfold Game.applyA
  rw [List.getElem?_eq_none (by omega)]

/-- Game for the C10 scenario: a 9 of Clubs occupies freecell 0. -/
def c10Game : Game :=
  { columns := [[⟨5, Suit.Diamond⟩], [], [], [], [], [], [], []],
    freecells := [some ⟨9, Suit.Club⟩, none, none, none],
    foundations := [0, 0, 0, 0] }

/-- Claim C10 witness: the freecell-to-column action `(8, 0, 1)` passes the
`Action::new` validation (it is exactly what `get_all_possible_moves` builds
for an occupied freecell) and `apply` panics on it. -/
theorem c10_apply_oob_witness :
    OAction.new 8 0 1 = RResult.ok ⟨8, 0, 1⟩ ∧
      c10Game.applyA ⟨8, 0, 1⟩ = RResult.panicked :=
  ⟨by decide, c10_apply_oob c10Game ⟨8, 0, 1⟩ (by decide) (by decide)⟩

/-! Move generator and heuristic of src/solver.rs (claims C4, C5, C6). -/

/-- Move kind from src/action.rs lines 4-11. -/
inductive ActionType where
  | ColToFoundation
  | FreecellToFoundation
  | ColToFreecell
  | FreecellToCol
  | ColToCol
deriving DecidableEq, Repr

/-- Move record from src/action.rs lines 13-19 (named SAction here because Mathlib already declares an `Action`). -/
structure SAction where
  actionType : ActionType
  source : Nat
  dest : Nat
  pileSize : Nat
deriving DecidableEq, Repr

/-- Modelled from the spec: `can_stack_on` is called throughout src/solver.rs
but its definition exists only in a commented-out block of that file, so it
is taken from spec §4.1 — `can_stack_on(below, above)` is true iff
`below.color != above.color` and `below.rank == above.rank + 1`, with colour
given by the committed `Card::is_black` of src/card.rs. -/
def canStackOn (below above : Card) : Bool :=
  (below.isBlack != above.isBlack) && (below.rank == above.rank + 1)

/-- Modelled from the spec: `count_free_cells` (spec §4.1 legality queries) is
the number of empty freecells; the compiled sources only call it. -/
def countFreeCells (g : Game) : Nat :=
  (g.freecells.filter (fun c => c.isNone)).length

/-- Modelled from the spec: `can_move_to_foundation` (spec §4.1 foundation
acceptance) — a card may go to its foundation iff
`foundations[c.suit] + 1 == c.rank`; the compiled sources only call it. -/
def canMoveToFoundation (g : Game) (c : Card) : Bool :=
  g.foundations.getD (suitIndex c.suit) 0 + 1 == c.rank

/-- Adjacent (lower, upper) pairs of a column, in order — Rust's
`col.windows(2)`. -/
def windowPairs (col : List Card) : List (Card × Card) :=
  col.zip col.tail

/-- Movable-suffix length computed at src/solver.rs lines 93-100: starting
from 1, walk `windows(2).rev()` and count while `can_stack_on(lower, upper)`
holds. -/
def seqLen (col : List Card) : Nat :=
  ((windowPairs col).reverse.takeWhile (fun p => canStackOn p.1 p.2)).length + 1

/-- Foundation moves from cascade tops, src/solver.rs lines 56-71. -/
def colFoundationMoves (g : Game) : List SAction :=
  g.columns.enum.filterMap (fun p =>
    match p.2.getLast? with
    | none => none
    | some top =>
        if canMoveToFoundation g top then
          some ⟨ActionType.ColToFoundation, p.1, suitIndex top.suit, 1⟩
        else none)

/-- Foundation moves from freecells, src/solver.rs lines 74-85. -/
def fcFoundationMoves (g : Game) : List SAction :=
  g.freecells.enum.filterMap (fun p =>
    p.2.bind (fun card =>
      if canMoveToFoundation g card then
        some ⟨ActionType.FreecellToFoundation, p.1, suitIndex card.suit, 1⟩
      else none))

/-- Column-to-column moves from source `i`, src/solver.rs lines 103-134:
note the loop `for pile_size in 1..seq_len` is exclusive at `seq_len`, and the
skip guard compares `seq_len` with the length of the TARGET column. -/
def colToColFor (g : Game) (i : Nat) (srcCol : List Card) : List SAction :=
  (g.columns.enum.map (fun q =>
    if i == q.1 then []
    else if seqLen srcCol == q.2.length && q.2.isEmpty then []
    else
      (List.range' 1 (seqLen srcCol - 1)).filterMap (fun pileSize =>
        match q.2.getLast? with
        | none => some ⟨ActionType.ColToCol, i, q.1, pileSize⟩
        | some targetTop =>
            let movingCard := srcCol.getD (srcCol.length - pileSize) default
            if canStackOn targetTop movingCard then
              some ⟨ActionType.ColToCol, i, q.1, pileSize⟩
            else none))).flatten

/-- Single move to the first empty freecell, src/solver.rs lines 137-147. -/
def colToFreecellFor (g : Game) (i : Nat) : List SAction :=
  match g.freecells.findIdx? (fun c => c.isNone) with
  | some k => [⟨ActionType.ColToFreecell, i, k, 1⟩]
  | none => []

/-- Freecell-to-column moves targeting column `i`, src/solver.rs lines
150-171 (the `source_col.is_empty()` branch is dead here because the
enclosing loop has already skipped empty source columns). -/
def freecellToColFor (g : Game) (i : Nat) (srcCol : List Card) : List SAction :=
  g.freecells.enum.filterMap (fun p =>
    p.2.bind (fun card =>
      if srcCol.isEmpty then some ⟨ActionType.FreecellToCol, p.1, i, 1⟩
      else
        match srcCol.getLast? with
        | some targetTop =>
            if canStackOn targetTop card then
              some ⟨ActionType.FreecellToCol, p.1, i, 1⟩
            else none
        | none => none))

/-- Move generator `Solver::get_moves`, src/solver.rs lines 53-175. -/
def getMoves (g : Game) : List SAction :=
  colFoundationMoves g ++ fcFoundationMoves g ++
    (g.columns.enum.map (fun p =>
      if p.2.isEmpty then []
      else colToColFor g p.1 p.2 ++ colToFreecellFor g p.1 ++
        freecellToColFor g p.1 p.2)).flatten

/-- Game refuting claim C5: a lone 5 of Diamonds on column 0 stacks on the
6 of Clubs topping column 1, all freecells are occupied by irrelevant cards,
yet `get_moves` emits nothing at all. -/
def c5Game : Game :=
  { columns := [[⟨5, Suit.Diamond⟩], [⟨6, Suit.Club⟩], [], [], [], [], [], []],
    freecells := [some ⟨9, Suit.Club⟩, some ⟨9, Suit.Spade⟩,
      some ⟨10, Suit.Club⟩, some ⟨10, Suit.Spade⟩],
    foundations := [0, 0, 0, 0] }

/-- Claim C5 (code_bug evidence): the 5 of Diamonds is a movable single top
card (`seq_len = 1`) that stacks on column 1's top, so the claim requires a
ColToCol move of pile_size 1 from 0 to 1 (and to every empty column); but the
exclusive `for pile_size in 1..seq_len` loop never reaches pile_size =
seq_len, and the generator emits no move whatsoever on this state. -/
theorem c5_generator_misses_single_card_moves :
    canStackOn ⟨6, Suit.Club⟩ ⟨5, Suit.Diamond⟩ = true ∧
      seqLen [⟨5, Suit.Diamond⟩] = 1 ∧
      getMoves c5Game = [] := by
  exact ⟨by decide, by decide, by decide⟩

/-- The movable-suffix length is always at least 1. -/
lemma seqLen_pos (col : List Card) : 1 ≤ seqLen col := Nat.le_add_left 1 _

/-- Cascade-top foundation moves carry the ColToFoundation tag. -/
lemma actionType_of_mem_colFoundationMoves {g : Game} {a : SAction}
    (h : a ∈ colFoundationMoves g) : a.actionType = ActionType.ColToFoundation := by
  unfold colFoundationMoves at h
  rw [List.mem_filterMap] at h
  obtain ⟨p, hp, hb⟩ := h
  cases hl : p.2.getLast? with
  | none => rw [hl] at hb; exact absurd hb (by simp)
  | some t =>
    rw [hl] at hb
    simp only [] at hb
    by_cases hc : canMoveToFoundation g t
    · rw [if_pos hc] at hb
      simp only [Option.some.injEq] at hb
      rw [← hb]
    · rw [if_neg hc] at hb; exact absurd hb (by simp)

/-- Freecell foundation moves carry the FreecellToFoundation tag. -/
lemma actionType_of_mem_fcFoundationMoves {g : Game} {a : SAction}
    (h : a ∈ fcFoundationMoves g) : a.actionType = ActionType.FreecellToFoundation := by
  unfold fcFoundationMoves at h
  rw [List.mem_filterMap] at h
  obtain ⟨p, hp, hb⟩ := h
  rw [Option.bind_eq_some] at hb
  obtain ⟨card, hcard, hb⟩ := hb
  by_cases hc : canMoveToFoundation g card
  · rw [if_pos hc] at hb
    simp only [Option.some.injEq] at hb
    rw [← hb]
  · rw [if_neg hc] at hb; exact absurd hb (by simp)

/-- Freecell moves carry the ColToFreecell tag. -/
lemma actionType_of_mem_colToFreecellFor {g : Game} {i : Nat} {a : SAction}
    (h : a ∈ colToFreecellFor g i) : a.actionType = ActionType.ColToFreecell := by
  unfold colToFreecellFor at h
  cases hf : g.freecells.findIdx? (fun c => c.isNone) with
  | none => rw [hf] at h; exact absurd h (by simp)
  | some k =>
    rw [hf] at h
    simp only [List.mem_singleton] at h
    rw [h]

/-- Freecell-to-column moves carry the FreecellToCol tag. -/
lemma actionType_of_mem_freecellToColFor {g : Game} {i : Nat} {src : List Card} {a : SAction}
    (h : a ∈ freecellToColFor g i src) : a.actionType = ActionType.FreecellToCol := by
  unfold freecellToColFor at h
  rw [List.mem_filterMap] at h
  obtain ⟨p, hp, hb⟩ := h
  rw [Option.bind_eq_some] at hb
  obtain ⟨card, hcard, hb⟩ := hb
  by_cases he : src.isEmpty
  · rw [if_pos he] at hb
    simp only [Option.some.injEq] at hb
    rw [← hb]
  · rw [if_neg he] at hb
    cases hl : src.getLast? with
    | none => rw [hl] at hb; exact absurd hb (by simp)
    | some t =>
      rw [hl] at hb
      simp only [] at hb
      by_cases hc : canStackOn t card
      · rw [if_pos hc] at hb
        simp only [Option.some.injEq] at hb
        rw [← hb]
      · rw [if_neg hc] at hb; exact absurd hb (by simp)

/-- Every column-to-column move the generator emits from source column `i`
has pile size strictly below the movable-suffix length — the exclusive
iteration `for pile_size in 1..seq_len`. -/
lemma mem_colToColFor {g : Game} {i : Nat} {src : List Card} {a : SAction}
    (h : a ∈ colToColFor g i src) :
    a.actionType = ActionType.ColToCol ∧ a.source = i ∧ a.pileSize < seqLen src := by
  unfold colToColFor at h
  rw [List.mem_flatten] at h
  obtain ⟨l, hl, hal⟩ := h
  rw [List.mem_map] at hl
  obtain ⟨q, hq, rfl⟩ := hl
  by_cases h1 : i == q.1
  · rw [if_pos h1] at hal; exact absurd hal (by simp)
  · rw [if_neg h1] at hal
    by_cases h2 : seqLen src == q.2.length && q.2.isEmpty
    · rw [if_pos h2] at hal; exact absurd hal (by simp)
    · rw [if_neg h2] at hal
      rw [List.mem_filterMap] at hal
      obtain ⟨p, hp, hbody⟩ := hal
      rw [List.mem_range'_1] at hp
      have hplt : p < seqLen src := by
        have := seqLen_pos src
        omega
      cases hlast : q.2.getLast? with
      | none =>
        rw [hlast] at hbody
        simp only [Option.some.injEq] at hbody
        rw [← hbody]
        exact ⟨rfl, rfl, hplt⟩
      | some t =>
        rw [hlast] at hbody
        simp only [] at hbody
        by_cases hc : canStackOn t (src.getD (src.length - p) default)
        · rw [if_pos hc] at hbody
          simp only [Option.some.injEq] at hbody
          rw [← hbody]
          exact ⟨rfl, rfl, hplt⟩
        · rw [if_neg hc] at hbody; exact absurd hbody (by simp)

/-- Any ColToCol move in `get_moves` originates from the per-source loop, so
its source column exists and its pile size is below that column's
movable-suffix length. -/
lemma mem_getMoves_colToCol {g : Game} {a : SAction}
    (h : a ∈ getMoves g) (ht : a.actionType = ActionType.ColToCol) :
    ∃ src, g.columns[a.source]? = some src ∧ a.pileSize < seqLen src := by
  unfold getMoves at h
  rw [List.mem_append] at h
  rcases h with h | h
  · rw [List.mem_append] at h
    rcases h with h | h
    · rw [actionType_of_mem_colFoundationMoves h] at ht; exact absurd ht (by simp)
    · rw [actionType_of_mem_fcFoundationMoves h] at ht; exact absurd ht (by simp)
  · rw [List.mem_flatten] at h
    obtain ⟨l, hl, hal⟩ := h
    rw [List.mem_map] at hl
    obtain ⟨q, hq, rfl⟩ := hl
    by_cases he : q.2.isEmpty
    · rw [if_pos he] at hal; exact absurd hal (by simp)
    · rw [if_neg he] at hal
      rw [List.mem_append] at hal
      rcases hal with hal | hal
      · rw [List.mem_append] at hal
        rcases hal with hal | hal
        · obtain ⟨_, hsrc, hlt⟩ := mem_colToColFor hal
          refine ⟨q.2, ?_, hlt⟩
          rw [hsrc]
          exact List.mem_enum_iff_getElem?.mp hq
        · rw [actionType_of_mem_colToFreecellFor hal] at ht; exact absurd ht (by simp)
      · rw [actionType_of_mem_freecellToColFor hal] at ht; exact absurd ht (by simp)

/-- Claim C6 (confirmed): whenever the movable suffix of cascade `i` spans the
whole cascade, no ColToCol move relocating that entire cascade onto an empty
cascade `j` is generated (in fact no emitted ColToCol move ever has pile size
equal to the suffix length, because the generation loop is exclusive). -/
theorem c6_no_full_cascade_to_empty (g : Game) (i j : Nat)
    (hseq : seqLen (g.columns.getD i []) = (g.columns.getD i []).length)
    (hempty : (g.columns.getD j []).isEmpty = true) :
    SAction.mk ActionType.ColToCol i j ((g.columns.getD i []).length) ∉ getMoves g := by
  intro hmem
  obtain ⟨src, hsrc, hlt⟩ := mem_getMoves_colToCol hmem rfl
  have hgd : g.columns.getD i [] = src := by
    simp [List.getD_eq_getElem?_getD, hsrc]
  simp only [] at hlt
  rw [hgd] at hseq hlt
  omega

/-- Game for the C6 witness: column 0 is entirely one in-sequence run
(7 of Diamonds under 6 of Clubs) and column 1 is empty. -/
def c6Game : Game :=
  { columns := [[⟨7, Suit.Diamond⟩, ⟨6, Suit.Club⟩], [], [], [], [], [], [], []],
    freecells := [none, none, none, none],
    foundations := [0, 0, 0, 0] }

/-- Claim C6 witness: on the concrete game the movable suffix spans all of
column 0, column 1 is empty, and the full-cascade move is not generated. -/
theorem c6_no_full_cascade_to_empty_witness :
    seqLen (c6Game.columns.getD 0 []) = (c6Game.columns.getD 0 []).length ∧
      (c6Game.columns.getD 1 []).isEmpty = true ∧
      SAction.mk ActionType.ColToCol 0 1 ((c6Game.columns.getD 0 []).length) ∉ getMoves c6Game :=
  ⟨by decide, by decide, c6_no_full_cascade_to_empty c6Game 0 1 (by decide) (by decide)⟩

/-- Number of adjacent in-sequence pairs over all columns — the pairs counted
with weight 0.3 at src/solver.rs lines 30-36. -/
def stackPairs (g : Game) : Nat :=
  (g.columns.map (fun col =>
    ((windowPairs col).filter (fun p => canStackOn p.1 p.2)).length)).sum

/-- Number of adjacent rank inversions (lower card of strictly smaller rank)
over all columns — the pairs counted with weight 0.5 at src/solver.rs lines
42-48. -/
def inversions (g : Game) : Nat :=
  (g.columns.map (fun col =>
    ((windowPairs col).filter (fun p => decide (p.1.rank < p.2.rank))).length)).sum

/-- Heuristic `Solver::heuristic` from src/solver.rs lines 22-51, with the
`f32` accumulation modelled exactly over `ℚ` (the weights are the literals
0.3 and 0.5 of the source; every term is one of those weights times a small
count): remaining cards, minus 0.3 per in-sequence pair, plus 0.5 per
occupied freecell, plus 0.5 per rank inversion.  The `u32` subtraction
`52 - sum` and the `usize` subtraction `4 - count_free_cells` are truncated
as in the conventions above. -/
def heuristic (g : Game) : ℚ :=
  ((52 - g.foundations.sum : Nat) : ℚ)
    - (3 / 10) * (stackPairs g : ℚ)
    + ((4 - countFreeCells g : Nat) : ℚ) * (1 / 2)
    + (1 / 2) * (inversions g : ℚ)

/-- Integer formula asserted by claim C4 (spec §4.3's weights):
`10*(52 - Σ foundations) - 3*stackPairs + 5*(4 - empty freecells) + 5*inversions`. -/
def heuristicClaim (g : Game) : ℤ :=
  10 * (52 - (g.foundations.sum : ℤ)) - 3 * (stackPairs g : ℤ)
    + 5 * (4 - (countFreeCells g : ℤ)) + 5 * (inversions g : ℤ)

/-- State on which the claimed integer formula and the code's score differ:
an empty board with empty foundations. -/
def c4Game : Game :=
  { columns := [[], [], [], [], [], [], [], []],
    freecells := [none, none, none, none],
    foundations := [0, 0, 0, 0] }

/-- Claim C4 counterexample: the code's heuristic is not the claimed integer
expression — on the empty board the score is 52 (a value involving no
rounding at all) while the claimed formula gives 520. -/
theorem c4_counterexample :
    heuristic c4Game ≠ ((heuristicClaim c4Game : ℤ) : ℚ) := by
  have h1 : heuristic c4Game = 52 := by
    simp [heuristic, c4Game, stackPairs, inversions, countFreeCells, windowPairs]
  have h2 : heuristicClaim c4Game = 520 := by
    simp [heuristicClaim, c4Game, stackPairs, inversions, countFreeCells, windowPairs]
  rw [h1, h2]
  norm_num

/-- Claim C4 (amended, proved): the code's score is exactly one tenth of the
claimed integer expression — same four components, same signs, but weights
1, 0.3, 0.5, 0.5 and an `f32` result instead of 10, 3, 5, 5 on an integer. -/
theorem c4_heuristic_is_tenth_of_claim (g : Game)
    (hf : g.foundations.sum ≤ 52) (hc : countFreeCells g ≤ 4) :
    10 * heuristic g = ((heuristicClaim g : ℤ) : ℚ) := by
  unfold heuristic heuristicClaim
  push_cast [Nat.cast_sub hf, Nat.cast_sub hc, -Nat.cast_list_sum, -Int.cast_list_sum]
  ring

/-- Claim C4 witness: the amended relation instantiated on the empty board. -/
theorem c4_heuristic_is_tenth_of_claim_witness :
    10 * heuristic c4Game = ((heuristicClaim c4Game : ℤ) : ℚ) :=
  c4_heuristic_is_tenth_of_claim c4Game (by decide) (by decide)
